import Mathlib

/-
Verification development for the configuration subsystem of
teamhart-nl/backendutil (src/Configurable.py).

The embedding models Python/JSON values as the inductive `PyVal`, Python
dictionaries as insertion-ordered association lists (`Dict`), and the
attach/merge algorithm of `Configurable.__init__` as the function `attach`.
Machine floats only matter here as opaque payloads carried through the store
(the code never computes with them), so they are embedded as exact rationals.
-/

namespace Backendutil

/-- Values storable in the configuration document and on components.
Constructors mirror the Python types handled by the code:
bool, int, float, str, dict, list, tuple. JSON serialisation writes a tuple
as a JSON array, which reads back as a list; `list` is therefore a separate
constructor even though `list` is absent from `__CONFIGURABLE_TYPES__`. -/
inductive PyVal where
  | bool (b : Bool)
  | int (n : Int)
  | float (q : ℚ)
  | str (s : String)
  | dict (entries : List (String × PyVal))
  | list (items : List PyVal)
  | tuple (items : List PyVal)

/-- A Python dictionary with string keys: an insertion-ordered association
list (Python dicts preserve insertion order, which the JSON file exposes). -/
abbrev Dict := List (String × PyVal)

/-- Dictionary lookup (`d[k]` / `k in d`). -/
def lookupA : Dict → String → Option PyVal
  | [], _ => none
  | (k, v) :: rest, key => if k = key then some v else lookupA rest key

/-- Dictionary assignment `d[k] = v`: updates in place when the key exists,
appends at the end otherwise (Python insertion-order semantics). -/
def setA : Dict → String → PyVal → Dict
  | [], key, v => [(key, v)]
  | (k, w) :: rest, key, v =>
    if k = key then (k, v) :: rest else (k, w) :: setA rest key v

/-- `type(value) in __CONFIGURABLE_TYPES__` for
`__CONFIGURABLE_TYPES__ = [dict, str, int, float, bool, tuple]`.
Note that `list` is not in the allow-list. -/
def isConfigurable : PyVal → Bool
  | .dict _ => true
  | .str _ => true
  | .int _ => true
  | .float _ => true
  | .bool _ => true
  | .tuple _ => true
  | .list _ => false

/-- Python's `s.startswith(p)`: is `p` a prefix of `s` as character
sequences? -/
def pyStartsWith (s p : String) : Bool :=
  List.isPrefixOf p.data s.data

/-- An attribute participates in attach when its name does not start with the
reserved underscore marker and its current value's type is configurable
(the two `continue` guards at the top of the attribute loop). -/
def eligAttr (p : String × PyVal) : Bool :=
  !(pyStartsWith p.1 ("_")) && isConfigurable p.2

/-- Result of running the attribute loop of `Configurable.__init__` against a
resolved component entry: the updated entry, the component's updated
attributes, and the two counters (`configured` = restored, `default` =
newly defaulted). -/
structure AttachResult where
  entry : Dict
  attrs : Dict
  configured : Nat
  default : Nat

/-- The attribute loop (lines 56-67 of Configurable.py): for each attribute,
skip underscore-prefixed names and non-configurable values; write the default
into the entry when the key is absent; otherwise overwrite the component's
attribute with the stored value. -/
def attachEntry : Dict → Dict → AttachResult
  | entry, [] => ⟨entry, [], 0, 0⟩
  | entry, (k, v) :: rest =>
    if !(eligAttr (k, v)) then
      let r := attachEntry entry rest
      ⟨r.entry, (k, v) :: r.attrs, r.configured, r.default⟩
    else
      match lookupA entry k with
      | none =>
        let r := attachEntry (entry ++ [(k, v)]) rest
        ⟨r.entry, (k, v) :: r.attrs, r.configured, r.default + 1⟩
      | some w =>
        let r := attachEntry entry rest
        ⟨r.entry, (k, w) :: r.attrs, r.configured + 1, r.default⟩

/-- Outcome of a whole attach call: the updated store, the component's
updated attributes and the two counters. -/
structure AttachOutcome where
  store : Dict
  attrs : Dict
  configured : Nat
  default : Nat

/-- The attach operation (`Configurable.__init__`, lines 34-72) on the global
store. `none` models a raised `TypeError`: resolving a section whose stored
value is not a dict always raises in Python, and a non-dict component entry
raises as soon as one eligible attribute reaches the `key not in c` /
subscription step (with zero eligible attributes the loop completes with both
counters 0). The returned outcome carries the mutated store. -/
def attach (store : Dict) (sect name : String) (attrs : Dict) :
    Option AttachOutcome :=
  -- lines 40-41: add section if missing
  let store1 :=
    if sect = "" then store
    else if (lookupA store sect).isNone then setA store sect (.dict []) else store
  -- line 42: c = store[section] or the root
  let cOpt : Option Dict :=
    if sect = "" then some store1
    else
      match lookupA store1 sect with
      | some (.dict m) => some m
      | _ => none
  match cOpt with
  | none => none
  | some c =>
    -- lines 45-46: add name if missing
    let c1 := if (lookupA c name).isNone then c ++ [(name, .dict [])] else c
    -- line 49: redirect
    match lookupA c1 name with
    | some (.dict entry) =>
      let r := attachEntry entry attrs
      let c2 := setA c1 name (.dict r.entry)
      let store2 := if sect = "" then c2 else setA store1 sect (.dict c2)
      some ⟨store2, r.attrs, r.configured, r.default⟩
    | some _ =>
      if attrs.all (fun p => !(eligAttr p)) then some ⟨store1, attrs, 0, 0⟩
      else none
    | none => none

/-- `__DEFAULT_CONFIG__` (lines 10-16). -/
def defaultConfig : Dict :=
  [(("use-config"), .bool false),
   (("use-config-comment"), .list
     [.str ("Set to true if you edit the config file manually."),
      .str ("If false, the config file will be overwritten with the default config every restart.")])]

/-- Python truthiness of a value, used by `not __CONFIGURABLES__["use-config"]`. -/
def pyTruthy : PyVal → Bool
  | .bool b => b
  | .int n => decide (n ≠ 0)
  | .float q => decide (q ≠ 0)
  | .str s => decide (s ≠ "")
  | .dict es => !es.isEmpty
  | .list xs => !xs.isEmpty
  | .tuple xs => !xs.isEmpty

/-- Error conditions of the module-level load (lines 23-25): a JSON parse
failure from `json.loads`, or a `TypeError` from applying `in` /
subscription to an unsupported parsed value. Both propagate to the caller. -/
inductive LoadErr where
  | jsonDecode
  | typeError
deriving DecidableEq

/-- Does the character sequence `hay` contain `needle` as a contiguous
substring? -/
def hasSubstr (hay needle : List Char) : Bool :=
  hay.tails.any fun t => needle.isPrefixOf t

/-- Does the Python string `s` contain `"use-config"` as a substring
(`"use-config" in s` for a str)? -/
def strHasUseConfig (s : String) : Bool :=
  hasSubstr s.data ("use-config").data

/-- Is some element of the sequence the string `"use-config"`
(`"use-config" in xs` for a list/tuple)? -/
def seqHasUseConfig (xs : List PyVal) : Bool :=
  xs.any fun x =>
    match x with
    | .str s => decide (s = "use-config")
    | _ => false

/-- The module-level initialisation of `__CONFIGURABLES__` (lines 23-25).
Input: `none` when the config file is missing; `some none` when the file
exists but `json.loads` fails; `some (some v)` when it parses to `v`.
Line 24 evaluates `"use-config" not in C or not C["use-config"]` on the
parsed value: for a dict this is a key lookup plus truthiness, for a str a
substring test whose positive case then raises on string subscription, for a
list/tuple a membership test whose positive case raises on subscription, and
for bool/int/float the `in` operator itself raises. -/
def loadConfigurables (file : Option (Option PyVal)) : Except LoadErr Dict :=
  match file with
  | none => .ok defaultConfig
  | some none => .error .jsonDecode
  | some (some v) =>
    match v with
    | .dict es =>
      match lookupA es ("use-config") with
      | none => .ok defaultConfig
      | some w => if pyTruthy w then .ok es else .ok defaultConfig
    | .str s => if strHasUseConfig s then .error .typeError else .ok defaultConfig
    | .list xs => if seqHasUseConfig xs then .error .typeError else .ok defaultConfig
    | .tuple xs => if seqHasUseConfig xs then .error .typeError else .ok defaultConfig
    | _ => .error .typeError

mutual

/-- Semantics of `json.loads(json.dumps v)` for a serialisable value:
scalars and strings survive exactly (Python serialises finite floats via
their shortest round-tripping decimal form, so the float payload is
preserved); a dict keeps its keys with round-tripped values; a list stays a
list; a tuple is written as a JSON array and therefore reads back as a list. -/
def roundTrip : PyVal → PyVal
  | .bool b => .bool b
  | .int n => .int n
  | .float q => .float q
  | .str s => .str s
  | .dict es => .dict (roundTripEntries es)
  | .list xs => .list (roundTripList xs)
  | .tuple xs => .list (roundTripList xs)

/-- Round-trip of a dict's entries, key by key. -/
def roundTripEntries : List (String × PyVal) → List (String × PyVal)
  | [] => []
  | (k, v) :: rest => (k, roundTrip v) :: roundTripEntries rest

/-- Round-trip of a sequence's items. -/
def roundTripList : List PyVal → List PyVal
  | [] => []
  | x :: xs => roundTrip x :: roundTripList xs

end

/-- A value containing no tuple anywhere (tuples are the one configurable
type JSON serialisation does not re-read as itself). -/
inductive TupleFree : PyVal → Prop where
  | bool (b : Bool) : TupleFree (.bool b)
  | int (n : Int) : TupleFree (.int n)
  | float (q : ℚ) : TupleFree (.float q)
  | str (s : String) : TupleFree (.str s)
  | dict (es : List (String × PyVal)) :
      (∀ p ∈ es, TupleFree (Prod.snd p)) → TupleFree (.dict es)
  | list (xs : List PyVal) :
      (∀ x ∈ xs, TupleFree x) → TupleFree (.list xs)

/-- The component entry the store holds at `(sect, name)`, when present as a
dict: an empty section string resolves names directly at the document root. -/
def entryAt (store : Dict) (sect name : String) : Option Dict :=
  let c : Option Dict :=
    if sect = "" then some store
    else
      match lookupA store sect with
      | some (.dict m) => some m
      | _ => none
  match c with
  | some m =>
    match lookupA m name with
    | some (.dict e) => some e
    | _ => none
  | none => none

/-- How attach writes a processed component entry back into the store at
`(sect, name)`: a direct root assignment for the empty section, an update of
the section's dict otherwise (creating the section when it was absent). -/
def writeBack (store : Dict) (sect name : String) (newEntry : Dict) : Dict :=
  if sect = "" then setA store name (.dict newEntry)
  else
    match lookupA store sect with
    | some (.dict m) => setA store sect (.dict (setA m name (.dict newEntry)))
    | _ => setA store sect (.dict [(name, .dict newEntry)])

/-- How the section/name resolution of attach can end: with a dict entry to
merge into (possibly freshly created), with a pre-existing non-dict component
entry (Python only raises there once an eligible attribute is processed), or
with a non-dict section value (Python always raises there). -/
inductive Resolution where
  | entry (e : Dict)
  | badEntry
  | badSection

/-- The resolution attach performs before its attribute loop. -/
def resolve (store : Dict) (sect name : String) : Resolution :=
  if sect = "" then
    match lookupA store name with
    | none => .entry []
    | some (.dict e) => .entry e
    | some _ => .badEntry
  else
    match lookupA store sect with
    | none => .entry []
    | some (.dict m) =>
      match lookupA m name with
      | none => .entry []
      | some (.dict e) => .entry e
      | some _ => .badEntry
    | some _ => .badSection

/-- Outcome of an attach together with the persistence side effect: `disk` is
the parse of what the config file currently holds (`none`: no file). -/
structure RunOutcome where
  store : Dict
  disk : Option Dict
  attrs : Dict
  configured : Nat
  default : Nat

/-- Attach followed by the conditional save of lines 70-72: the file is
rewritten with the serialised store exactly when at least one default was
newly added. The disk field stores what a subsequent `json.loads` of the
written file yields, i.e. the round-tripped store. -/
def attachRun (store : Dict) (disk : Option Dict) (sect name : String)
    (attrs : Dict) : Option RunOutcome :=
  match attach store sect name attrs with
  | none => none
  | some o =>
    some ⟨o.store,
      if 0 < o.default then some (roundTripEntries o.store) else disk,
      o.attrs, o.configured, o.default⟩

/-- Python's `s.lower()`, character by character. -/
def pyLower (s : String) : String :=
  String.mk (s.data.map Char.toLower)

/-- `Configurable.make_name` (lines 91-95), with the component's
`__str__` override made explicit: `strOv = some s` models a class overriding
`__str__` to return `s`, `strOv = none` the default `object.__str__`, whose
result is always of the form `<module.Class object at 0x...>`. The code keys
on whether `str(self)` starts with the sentinel character. -/
def make_name (className : String) (strOv : Option String) : String :=
  let s :=
    match strOv with
    | some t => t
    | none => "<__main__." ++ className ++ " object at 0x0000>"
  if pyStartsWith s ("<") then pyLower className else s

/-! Basic association-list lemmas. -/

theorem lookupA_setA_self (d : Dict) (k : String) (v : PyVal) :
    lookupA (setA d k v) k = some v := by
  induction d with
  | nil => simp [setA, lookupA]
  | cons p rest ih =>
    obtain ⟨k', w⟩ := p
    by_cases h : k' = k
    · subst h; simp [setA, lookupA]
    · simp [setA, lookupA, h, ih]

theorem lookupA_setA_ne (d : Dict) (k k' : String) (v : PyVal) (h : k' ≠ k) :
    lookupA (setA d k v) k' = lookupA d k' := by
  induction d with
  | nil => simp [setA, lookupA, Ne.symm h]
  | cons p rest ih =>
    obtain ⟨k₀, w⟩ := p
    by_cases h0 : k₀ = k
    · subst h0; simp [setA, lookupA, Ne.symm h]
    · simp [setA, lookupA, h0, ih]

theorem setA_eq_append (d : Dict) (k : String) (v : PyVal)
    (h : lookupA d k = none) : setA d k v = d ++ [(k, v)] := by
  induction d with
  | nil => simp [setA]
  | cons p rest ih =>
    obtain ⟨k', w⟩ := p
    by_cases hk : k' = k
    · subst hk; simp [lookupA] at h
    · simp [lookupA, hk] at h
      simp [setA, hk, ih h]

theorem setA_setA (d : Dict) (k : String) (v w : PyVal) :
    setA (setA d k v) k w = setA d k w := by
  induction d with
  | nil => simp [setA]
  | cons p rest ih =>
    obtain ⟨k', u⟩ := p
    by_cases hk : k' = k
    · subst hk; simp [setA]
    · simp [setA, hk, ih]

theorem lookupA_append_of_isSome (d₁ d₂ : Dict) (k : String) (w : PyVal)
    (h : lookupA d₁ k = some w) : lookupA (d₁ ++ d₂) k = some w := by
  induction d₁ with
  | nil => simp [lookupA] at h
  | cons p rest ih =>
    obtain ⟨k', v⟩ := p
    by_cases hk : k' = k
    · subst hk; simp [lookupA] at h ⊢; exact h
    · simp [lookupA, hk] at h ⊢; exact ih h

theorem lookupA_append_of_none (d₁ d₂ : Dict) (k : String)
    (h : lookupA d₁ k = none) : lookupA (d₁ ++ d₂) k = lookupA d₂ k := by
  induction d₁ with
  | nil => simp [lookupA]
  | cons p rest ih =>
    obtain ⟨k', v⟩ := p
    by_cases hk : k' = k
    · subst hk; simp [lookupA] at h
    · simp [lookupA, hk] at h ⊢; exact ih h

theorem lookupA_singleton (k k' : String) (v : PyVal) :
    lookupA [(k, v)] k' = if k = k' then some v else none := by
  simp [lookupA]

theorem lookupA_append_singleton_eq (d : Dict) (k : String) (v : PyVal)
    (h : lookupA d k = none) : lookupA (d ++ [(k, v)]) k = some v := by
  rw [lookupA_append_of_none d _ k h]; simp [lookupA]

theorem setA_append_self (d : Dict) (k : String) (x y : PyVal)
    (h : lookupA d k = none) : setA (d ++ [(k, x)]) k y = d ++ [(k, y)] := by
  induction d with
  | nil => simp [setA]
  | cons p rest ih =>
    obtain ⟨k', w⟩ := p
    by_cases hk : k' = k
    · subst hk; simp [lookupA] at h
    · simp [lookupA, hk] at h
      simp [setA, hk, ih h]

theorem lookupA_append_singleton_cases (d : Dict) (k k' : String) (v w : PyVal)
    (h : lookupA (d ++ [(k, v)]) k' = some w) :
    lookupA d k' = some w ∨ (k' = k ∧ w = v) := by
  induction d with
  | nil =>
    simp [lookupA] at h
    rcases h with ⟨h1, h2⟩
    exact Or.inr ⟨h1.symm, h2.symm⟩
  | cons p rest ih =>
    obtain ⟨k₀, u⟩ := p
    by_cases hk : k₀ = k'
    · subst hk; simp [lookupA] at h ⊢; exact Or.inl h
    · simp [lookupA, hk] at h ⊢; exact ih h

/-! Lemmas about the attribute loop `attachEntry`. -/

theorem attachEntry_keys (a : Dict) : ∀ (e : Dict),
    ((attachEntry e a).attrs).map Prod.fst = a.map Prod.fst := by
  induction a with
  | nil => intro e; simp [attachEntry]
  | cons p rest ih =>
    intro e
    obtain ⟨k, v⟩ := p
    by_cases hel : eligAttr (k, v)
    · cases hw : lookupA e k with
      | none => simp [attachEntry, hel, hw, ih]
      | some w => simp [attachEntry, hel, hw, ih]
    · simp [attachEntry, hel, ih]

theorem attachEntry_entry_preserve (a : Dict) : ∀ (e : Dict) (k : String) (w : PyVal),
    lookupA e k = some w → lookupA (attachEntry e a).entry k = some w := by
  induction a with
  | nil => intro e k w h; simpa [attachEntry] using h
  | cons p rest ih =>
    intro e k w h
    obtain ⟨k', v⟩ := p
    by_cases hel : eligAttr (k', v)
    · cases hw : lookupA e k' with
      | none =>
        simp only [attachEntry, hel, hw]
        simp only [Bool.not_true, Bool.false_eq_true, if_false]
        exact ih _ k w (lookupA_append_of_isSome _ _ _ _ h)
      | some u =>
        simp only [attachEntry, hel, hw, Bool.not_true, Bool.false_eq_true, if_false]
        exact ih _ k w h
    · simp only [attachEntry, Bool.not_eq_true] at hel
      simp only [attachEntry, hel, Bool.not_false, if_true]
      exact ih _ k w h

theorem lookupA_append_singleton_ne (d : Dict) (k k' : String) (v : PyVal)
    (h : k' ≠ k) : lookupA (d ++ [(k', v)]) k = lookupA d k := by
  cases hd : lookupA d k with
  | some w => exact lookupA_append_of_isSome _ _ _ _ hd
  | none => rw [lookupA_append_of_none _ _ _ hd, lookupA_singleton, if_neg h]

theorem attachEntry_default_new (a : Dict) : ∀ (e : Dict) (k : String) (v : PyVal),
    (a.map Prod.fst).Nodup → (k, v) ∈ a → eligAttr (k, v) = true →
    lookupA e k = none → lookupA (attachEntry e a).entry k = some v := by
  induction a with
  | nil => intro e k v _ hm; simp at hm
  | cons p rest ih =>
    intro e k v hnd hm hel hnone
    obtain ⟨k', v'⟩ := p
    obtain ⟨hknotin, hndrest⟩ := List.nodup_cons.mp hnd
    rcases List.mem_cons.mp hm with heq | hm'
    · injection heq with h1 h2
      subst h1; subst h2
      simp only [attachEntry, hel, hnone, Bool.not_true, Bool.false_eq_true, if_false]
      exact attachEntry_entry_preserve rest _ k v (lookupA_append_singleton_eq e k v hnone)
    · have hkrest : k ∈ rest.map Prod.fst := List.mem_map_of_mem Prod.fst hm'
      have hne : k' ≠ k := fun h => hknotin (h ▸ hkrest)
      by_cases hel' : eligAttr (k', v')
      · cases hw : lookupA e k' with
        | none =>
          simp only [attachEntry, hel', hw, Bool.not_true, Bool.false_eq_true, if_false]
          exact ih _ k v hndrest hm' hel
            (by rw [lookupA_append_singleton_ne _ _ _ _ hne]; exact hnone)
        | some w =>
          simp only [attachEntry, hel', hw, Bool.not_true, Bool.false_eq_true, if_false]
          exact ih _ k v hndrest hm' hel hnone
      · simp only [Bool.not_eq_true] at hel'
        simp only [attachEntry, hel', Bool.not_false, if_true]
        exact ih _ k v hndrest hm' hel hnone

theorem attachEntry_entry_frame (a : Dict) : ∀ (e : Dict) (k : String),
    (∀ v, (k, v) ∈ a → eligAttr (k, v) = false) →
    lookupA (attachEntry e a).entry k = lookupA e k := by
  induction a with
  | nil => intro e k _; simp [attachEntry]
  | cons p rest ih =>
    intro e k hsk
    obtain ⟨k', v'⟩ := p
    have hsk' : ∀ v, (k, v) ∈ rest → eligAttr (k, v) = false :=
      fun v hv => hsk v (List.mem_cons_of_mem _ hv)
    by_cases hel' : eligAttr (k', v')
    · have hne : k' ≠ k := by
        intro h; subst h
        exact absurd hel' (by simp [hsk v' (List.mem_cons_self _ _)])
      cases hw : lookupA e k' with
      | none =>
        simp only [attachEntry, hel', hw, Bool.not_true, Bool.false_eq_true, if_false]
        rw [ih _ k hsk', lookupA_append_singleton_ne _ _ _ _ hne]
      | some w =>
        simp only [attachEntry, hel', hw, Bool.not_true, Bool.false_eq_true, if_false]
        exact ih _ k hsk'
    · simp only [Bool.not_eq_true] at hel'
      simp only [attachEntry, hel', Bool.not_false, if_true]
      exact ih _ k hsk'

theorem attachEntry_restore (a : Dict) : ∀ (e : Dict) (k : String) (v w : PyVal),
    (a.map Prod.fst).Nodup → (k, v) ∈ a → eligAttr (k, v) = true →
    lookupA e k = some w → lookupA (attachEntry e a).attrs k = some w := by
  induction a with
  | nil => intro e k v w _ hm; simp at hm
  | cons p rest ih =>
    intro e k v w hnd hm hel hsome
    obtain ⟨k', v'⟩ := p
    obtain ⟨hknotin, hndrest⟩ := List.nodup_cons.mp hnd
    rcases List.mem_cons.mp hm with heq | hm'
    · injection heq with h1 h2
      subst h1; subst h2
      simp only [attachEntry, hel, hsome, Bool.not_true, Bool.false_eq_true, if_false]
      simp [lookupA]
    · have hkrest : k ∈ rest.map Prod.fst := List.mem_map_of_mem Prod.fst hm'
      have hne : k' ≠ k := fun h => hknotin (h ▸ hkrest)
      by_cases hel' : eligAttr (k', v')
      · cases hw : lookupA e k' with
        | none =>
          simp only [attachEntry, hel', hw, Bool.not_true, Bool.false_eq_true, if_false]
          simp only [lookupA, hne, if_false]
          exact ih _ k v w hndrest hm' hel
            (by rw [lookupA_append_singleton_ne _ _ _ _ hne]; exact hsome)
        | some u =>
          simp only [attachEntry, hel', hw, Bool.not_true, Bool.false_eq_true, if_false]
          simp only [lookupA, hne, if_false]
          exact ih _ k v w hndrest hm' hel hsome
      · simp only [Bool.not_eq_true] at hel'
        simp only [attachEntry, hel', Bool.not_false, if_true]
        simp only [lookupA, hne, if_false]
        exact ih _ k v w hndrest hm' hel hsome

theorem attachEntry_attrs_skip (a : Dict) : ∀ (e : Dict) (k : String) (v : PyVal),
    (a.map Prod.fst).Nodup → (k, v) ∈ a → eligAttr (k, v) = false →
    lookupA (attachEntry e a).attrs k = some v := by
  induction a with
  | nil => intro e k v _ hm; simp at hm
  | cons p rest ih =>
    intro e k v hnd hm hel
    obtain ⟨k', v'⟩ := p
    obtain ⟨hknotin, hndrest⟩ := List.nodup_cons.mp hnd
    rcases List.mem_cons.mp hm with heq | hm'
    · injection heq with h1 h2
      subst h1; subst h2
      simp only [attachEntry, hel, Bool.not_false, if_true]
      simp [lookupA]
    · have hkrest : k ∈ rest.map Prod.fst := List.mem_map_of_mem Prod.fst hm'
      have hne : k' ≠ k := fun h => hknotin (h ▸ hkrest)
      by_cases hel' : eligAttr (k', v')
      · cases hw : lookupA e k' with
        | none =>
          simp only [attachEntry, hel', hw, Bool.not_true, Bool.false_eq_true, if_false]
          simp only [lookupA, hne, if_false]
          exact ih _ k v hndrest hm' hel
        | some u =>
          simp only [attachEntry, hel', hw, Bool.not_true, Bool.false_eq_true, if_false]
          simp only [lookupA, hne, if_false]
          exact ih _ k v hndrest hm' hel
      · simp only [Bool.not_eq_true] at hel'
        simp only [attachEntry, hel', Bool.not_false, if_true]
        simp only [lookupA, hne, if_false]
        exact ih _ k v hndrest hm' hel

theorem attachEntry_counts (a : Dict) : ∀ (e : Dict),
    (attachEntry e a).configured + (attachEntry e a).default =
      (a.filter eligAttr).length := by
  induction a with
  | nil => intro e; simp [attachEntry]
  | cons p rest ih =>
    intro e
    obtain ⟨k, v⟩ := p
    by_cases hel : eligAttr (k, v)
    · cases hw : lookupA e k with
      | none =>
        simp only [attachEntry, hel, hw, Bool.not_true, Bool.false_eq_true, if_false]
        simp only [List.filter_cons, hel, if_true, List.length_cons]
        have := ih (e ++ [(k, v)])
        omega
      | some w =>
        simp only [attachEntry, hel, hw, Bool.not_true, Bool.false_eq_true, if_false]
        simp only [List.filter_cons, hel, if_true, List.length_cons]
        have := ih e
        omega
    · simp only [Bool.not_eq_true] at hel
      simp only [attachEntry, hel, Bool.not_false, if_true]
      simp only [List.filter_cons, hel, Bool.false_eq_true, if_false]
      exact ih e

theorem attachEntry_all_present (a : Dict) : ∀ (e : Dict),
    (∀ p ∈ a, eligAttr p = true → (lookupA e p.1).isSome) →
    (attachEntry e a).entry = e ∧ (attachEntry e a).default = 0 ∧
      (attachEntry e a).configured = (a.filter eligAttr).length := by
  induction a with
  | nil => intro e _; simp [attachEntry]
  | cons p rest ih =>
    intro e hall
    obtain ⟨k, v⟩ := p
    have hrest : ∀ p ∈ rest, eligAttr p = true → (lookupA e p.1).isSome :=
      fun p hp => hall p (List.mem_cons_of_mem _ hp)
    by_cases hel : eligAttr (k, v)
    · have hk : (lookupA e k).isSome := hall (k, v) (List.mem_cons_self _ _) hel
      cases hw : lookupA e k with
      | none => rw [hw] at hk; simp at hk
      | some w =>
        simp only [attachEntry, hel, hw, Bool.not_true, Bool.false_eq_true, if_false]
        obtain ⟨h1, h2, h3⟩ := ih e hrest
        refine ⟨h1, h2, ?_⟩
        simp only [List.filter_cons, hel, if_true, List.length_cons]
        omega
    · simp only [Bool.not_eq_true] at hel
      simp only [attachEntry, hel, Bool.not_false, if_true]
      obtain ⟨h1, h2, h3⟩ := ih e hrest
      refine ⟨h1, h2, ?_⟩
      simp only [List.filter_cons, hel, Bool.false_eq_true, if_false]
      exact h3

theorem attachEntry_fresh (a : Dict) : ∀ (e : Dict),
    (a.map Prod.fst).Nodup →
    (∀ p ∈ a, eligAttr p = true → lookupA e p.1 = none) →
    (attachEntry e a).attrs = a ∧ (attachEntry e a).configured = 0 ∧
      (attachEntry e a).default = (a.filter eligAttr).length := by
  induction a with
  | nil => intro e _ _; simp [attachEntry]
  | cons p rest ih =>
    intro e hnd hall
    obtain ⟨k, v⟩ := p
    obtain ⟨hknotin, hndrest⟩ := List.nodup_cons.mp hnd
    by_cases hel : eligAttr (k, v)
    · have hw : lookupA e k = none := hall (k, v) (List.mem_cons_self _ _) hel
      simp only [attachEntry, hel, hw, Bool.not_true, Bool.false_eq_true, if_false]
      have hrest : ∀ p ∈ rest, eligAttr p = true →
          lookupA (e ++ [(k, v)]) p.1 = none := by
        intro p hp hpe
        have hne : k ≠ p.1 := by
          intro h
          apply hknotin
          have hmem : Prod.fst p ∈ List.map Prod.fst rest :=
            List.mem_map_of_mem Prod.fst hp
          rw [h]
          exact hmem
        rw [lookupA_append_singleton_ne _ _ _ _ hne]
        exact hall p (List.mem_cons_of_mem _ hp) hpe
      obtain ⟨h1, h2, h3⟩ := ih _ hndrest hrest
      refine ⟨by rw [h1], h2, ?_⟩
      simp only [List.filter_cons, hel, if_true, List.length_cons]
      omega
    · simp only [Bool.not_eq_true] at hel
      simp only [attachEntry, hel, Bool.not_false, if_true]
      have hrest : ∀ p ∈ rest, eligAttr p = true → lookupA e p.1 = none :=
        fun p hp => hall p (List.mem_cons_of_mem _ hp)
      obtain ⟨h1, h2, h3⟩ := ih _ hndrest hrest
      refine ⟨by rw [h1], h2, ?_⟩
      simp only [List.filter_cons, hel, Bool.false_eq_true, if_false]
      exact h3

theorem attachEntry_coverage (a : Dict) : ∀ (e : Dict) (k : String) (v : PyVal),
    (k, v) ∈ (attachEntry e a).attrs → eligAttr (k, v) = true →
    (lookupA (attachEntry e a).entry k).isSome := by
  induction a with
  | nil => intro e k v hm; simp [attachEntry] at hm
  | cons p rest ih =>
    intro e k v hm hel
    obtain ⟨k', v'⟩ := p
    by_cases hel' : eligAttr (k', v')
    · cases hw : lookupA e k' with
      | none =>
        simp only [attachEntry, hel', hw, Bool.not_true, Bool.false_eq_true,
          if_false] at hm ⊢
        rcases List.mem_cons.mp hm with heq | hm'
        · injection heq with h1 h2
          subst h1; subst h2
          have : lookupA (e ++ [(k, v)]) k = some v :=
            lookupA_append_singleton_eq e k v hw
          rw [attachEntry_entry_preserve rest _ k v this]
          simp
        · exact ih _ k v hm' hel
      | some w =>
        simp only [attachEntry, hel', hw, Bool.not_true, Bool.false_eq_true,
          if_false] at hm ⊢
        rcases List.mem_cons.mp hm with heq | hm'
        · injection heq with h1 h2
          subst h1
          rw [attachEntry_entry_preserve rest _ k w hw]
          simp
        · exact ih _ k v hm' hel
    · simp only [Bool.not_eq_true] at hel'
      simp only [attachEntry, hel', Bool.not_false, if_true] at hm ⊢
      rcases List.mem_cons.mp hm with heq | hm'
      · injection heq with h1 h2
        subst h1; subst h2
        rw [hel] at hel'
        cases hel'
      · exact ih _ k v hm' hel

theorem attachEntry_elig_count (a : Dict) : ∀ (e : Dict),
    (∀ k w, lookupA e k = some w → isConfigurable w = true) →
    ((attachEntry e a).attrs.filter eligAttr).length =
      (a.filter eligAttr).length := by
  induction a with
  | nil => intro e _; simp [attachEntry]
  | cons p rest ih =>
    intro e hwf
    obtain ⟨k, v⟩ := p
    by_cases hel : eligAttr (k, v)
    · cases hw : lookupA e k with
      | none =>
        simp only [attachEntry, hel, hw, Bool.not_true, Bool.false_eq_true, if_false]
        have hwf' : ∀ k' w, lookupA (e ++ [(k, v)]) k' = some w →
            isConfigurable w = true := by
          intro k' w h
          rcases lookupA_append_singleton_cases e k k' v w h with h1 | ⟨_, h2⟩
          · exact hwf k' w h1
          · subst h2
            have := hel
            simp only [eligAttr, Bool.and_eq_true] at this
            exact this.2
        simp only [List.filter_cons, hel, if_true, List.length_cons]
        rw [ih _ hwf']
      | some w =>
        have hwc : isConfigurable w = true := hwf k w hw
        have helw : eligAttr (k, w) = true := by
          simp only [eligAttr, Bool.and_eq_true] at hel ⊢
          exact ⟨hel.1, hwc⟩
        simp only [attachEntry, hel, hw, Bool.not_true, Bool.false_eq_true, if_false]
        simp only [List.filter_cons, hel, helw, if_true, List.length_cons]
        rw [ih _ hwf]
    · simp only [Bool.not_eq_true] at hel
      simp only [attachEntry, hel, Bool.not_false, if_true]
      simp only [List.filter_cons, hel, Bool.false_eq_true, if_false]
      exact ih _ hwf

/-! Characterisation of `attach` through `resolve` and `writeBack`. -/

theorem attach_eq (store : Dict) (sect name : String) (attrs : Dict) :
    attach store sect name attrs =
      match resolve store sect name with
      | .entry e =>
        some ⟨writeBack store sect name (attachEntry e attrs).entry,
              (attachEntry e attrs).attrs,
              (attachEntry e attrs).configured,
              (attachEntry e attrs).default⟩
      | .badEntry =>
        if attrs.all (fun p => !(eligAttr p)) then some ⟨store, attrs, 0, 0⟩
        else none
      | .badSection => none := by
  by_cases hs : sect = ""
  · subst hs
    cases hw : lookupA store name with
    | none =>
      have h1 : lookupA (store ++ [(name, PyVal.dict [])]) name =
          some (.dict []) := lookupA_append_singleton_eq store name (.dict []) hw
      simp [attach, resolve, writeBack, hw, h1,
        setA_append_self store name (PyVal.dict [])
          (PyVal.dict (attachEntry [] attrs).entry) hw,
        setA_eq_append store name (PyVal.dict (attachEntry [] attrs).entry) hw]
    | some w =>
      cases w with
      | dict e => simp [attach, resolve, writeBack, hw]
      | bool b => simp [attach, resolve, hw]
      | int n => simp [attach, resolve, hw]
      | float q => simp [attach, resolve, hw]
      | str s => simp [attach, resolve, hw]
      | list xs => simp [attach, resolve, hw]
      | tuple xs => simp [attach, resolve, hw]
  · cases hw : lookupA store sect with
    | none =>
      have h2 : lookupA (setA store sect (PyVal.dict [])) sect =
          some (.dict []) := lookupA_setA_self store sect (.dict [])
      have h3 : setA ([(name, PyVal.dict [])] : Dict) name
          (PyVal.dict (attachEntry [] attrs).entry) =
          [(name, PyVal.dict (attachEntry [] attrs).entry)] := by simp [setA]
      simp [attach, resolve, writeBack, hs, hw, h2, h3, lookupA, setA_setA]
    | some w =>
      cases w with
      | dict m =>
        cases hn : lookupA m name with
        | none =>
          have h1 : lookupA (m ++ [(name, PyVal.dict [])]) name =
              some (.dict []) := lookupA_append_singleton_eq m name (.dict []) hn
          simp [attach, resolve, writeBack, hs, hw, hn, h1,
            setA_append_self m name (PyVal.dict [])
              (PyVal.dict (attachEntry [] attrs).entry) hn,
            setA_eq_append m name (PyVal.dict (attachEntry [] attrs).entry) hn]
        | some u =>
          cases u with
          | dict e => simp [attach, resolve, writeBack, hs, hw, hn]
          | bool b => simp [attach, resolve, hs, hw, hn]
          | int n => simp [attach, resolve, hs, hw, hn]
          | float q => simp [attach, resolve, hs, hw, hn]
          | str s => simp [attach, resolve, hs, hw, hn]
          | list xs => simp [attach, resolve, hs, hw, hn]
          | tuple xs => simp [attach, resolve, hs, hw, hn]
      | bool b => simp [attach, resolve, hs, hw]
      | int n => simp [attach, resolve, hs, hw]
      | float q => simp [attach, resolve, hs, hw]
      | str s => simp [attach, resolve, hs, hw]
      | list xs => simp [attach, resolve, hs, hw]
      | tuple xs => simp [attach, resolve, hs, hw]

theorem entryAt_writeBack_self (store : Dict) (sect name : String) (e' : Dict) :
    entryAt (writeBack store sect name e') sect name = some e' := by
  by_cases hs : sect = ""
  · subst hs
    simp [writeBack, entryAt, lookupA_setA_self]
  · cases hw : lookupA store sect with
    | none => simp [writeBack, entryAt, hs, hw, lookupA_setA_self, lookupA]
    | some w =>
      cases w with
      | dict m =>
        simp [writeBack, entryAt, hs, hw, lookupA_setA_self]
      | bool b => simp [writeBack, entryAt, hs, hw, lookupA_setA_self, lookupA]
      | int n => simp [writeBack, entryAt, hs, hw, lookupA_setA_self, lookupA]
      | float q => simp [writeBack, entryAt, hs, hw, lookupA_setA_self, lookupA]
      | str s => simp [writeBack, entryAt, hs, hw, lookupA_setA_self, lookupA]
      | list xs => simp [writeBack, entryAt, hs, hw, lookupA_setA_self, lookupA]
      | tuple xs => simp [writeBack, entryAt, hs, hw, lookupA_setA_self, lookupA]

theorem resolve_writeBack (store : Dict) (sect name : String) (e' : Dict) :
    resolve (writeBack store sect name e') sect name = .entry e' := by
  by_cases hs : sect = ""
  · subst hs
    simp [writeBack, resolve, lookupA_setA_self]
  · cases hw : lookupA store sect with
    | none => simp [writeBack, resolve, hs, hw, lookupA_setA_self, lookupA]
    | some w =>
      cases w with
      | dict m => simp [writeBack, resolve, hs, hw, lookupA_setA_self]
      | bool b => simp [writeBack, resolve, hs, hw, lookupA_setA_self, lookupA]
      | int n => simp [writeBack, resolve, hs, hw, lookupA_setA_self, lookupA]
      | float q => simp [writeBack, resolve, hs, hw, lookupA_setA_self, lookupA]
      | str s => simp [writeBack, resolve, hs, hw, lookupA_setA_self, lookupA]
      | list xs => simp [writeBack, resolve, hs, hw, lookupA_setA_self, lookupA]
      | tuple xs => simp [writeBack, resolve, hs, hw, lookupA_setA_self, lookupA]

theorem resolve_of_entryAt (store : Dict) (sect name : String) (e : Dict)
    (h : entryAt store sect name = some e) :
    resolve store sect name = .entry e := by
  by_cases hs : sect = ""
  · subst hs
    cases hw : lookupA store name with
    | none => simp [entryAt, hw] at h
    | some w =>
      cases w with
      | dict e0 =>
        simp [entryAt, hw] at h
        simp [resolve, hw, h]
      | bool b => simp [entryAt, hw] at h
      | int n => simp [entryAt, hw] at h
      | float q => simp [entryAt, hw] at h
      | str s => simp [entryAt, hw] at h
      | list xs => simp [entryAt, hw] at h
      | tuple xs => simp [entryAt, hw] at h
  · cases hw : lookupA store sect with
    | none => simp [entryAt, hs, hw] at h
    | some w =>
      cases w with
      | dict m =>
        cases hn : lookupA m name with
        | none => simp [entryAt, hs, hw, hn] at h
        | some u =>
          cases u with
          | dict e0 =>
            simp [entryAt, hs, hw, hn] at h
            simp [resolve, hs, hw, hn, h]
          | bool b => simp [entryAt, hs, hw, hn] at h
          | int n => simp [entryAt, hs, hw, hn] at h
          | float q => simp [entryAt, hs, hw, hn] at h
          | str s => simp [entryAt, hs, hw, hn] at h
          | list xs => simp [entryAt, hs, hw, hn] at h
          | tuple xs => simp [entryAt, hs, hw, hn] at h
      | bool b => simp [entryAt, hs, hw] at h
      | int n => simp [entryAt, hs, hw] at h
      | float q => simp [entryAt, hs, hw] at h
      | str s => simp [entryAt, hs, hw] at h
      | list xs => simp [entryAt, hs, hw] at h
      | tuple xs => simp [entryAt, hs, hw] at h

theorem entryAt_writeBack_other (store : Dict) (sect name : String) (e' : Dict)
    (n' : String) (h : n' ≠ name) :
    entryAt (writeBack store sect name e') sect n' = entryAt store sect n' := by
  by_cases hs : sect = ""
  · subst hs
    simp [writeBack, entryAt, lookupA_setA_ne _ _ _ _ h]
  · cases hw : lookupA store sect with
    | none =>
      simp [writeBack, entryAt, hs, hw, lookupA_setA_self, lookupA,
        Ne.symm h]
    | some w =>
      cases w with
      | dict m =>
        simp [writeBack, entryAt, hs, hw, lookupA_setA_self,
          lookupA_setA_ne _ _ _ _ h]
      | bool b =>
        simp [writeBack, entryAt, hs, hw, lookupA_setA_self, lookupA, Ne.symm h]
      | int n =>
        simp [writeBack, entryAt, hs, hw, lookupA_setA_self, lookupA, Ne.symm h]
      | float q =>
        simp [writeBack, entryAt, hs, hw, lookupA_setA_self, lookupA, Ne.symm h]
      | str s =>
        simp [writeBack, entryAt, hs, hw, lookupA_setA_self, lookupA, Ne.symm h]
      | list xs =>
        simp [writeBack, entryAt, hs, hw, lookupA_setA_self, lookupA, Ne.symm h]
      | tuple xs =>
        simp [writeBack, entryAt, hs, hw, lookupA_setA_self, lookupA, Ne.symm h]

theorem writeBack_root_other (store : Dict) (sect name : String) (e' : Dict)
    (k : String) (hs : sect ≠ "") (h : k ≠ sect) :
    lookupA (writeBack store sect name e') k = lookupA store k := by
  cases hw : lookupA store sect with
  | none => simp [writeBack, hs, hw, lookupA_setA_ne _ _ _ _ h]
  | some w =>
    cases w with
    | dict m => simp [writeBack, hs, hw, lookupA_setA_ne _ _ _ _ h]
    | bool b => simp [writeBack, hs, hw, lookupA_setA_ne _ _ _ _ h]
    | int n => simp [writeBack, hs, hw, lookupA_setA_ne _ _ _ _ h]
    | float q => simp [writeBack, hs, hw, lookupA_setA_ne _ _ _ _ h]
    | str s => simp [writeBack, hs, hw, lookupA_setA_ne _ _ _ _ h]
    | list xs => simp [writeBack, hs, hw, lookupA_setA_ne _ _ _ _ h]
    | tuple xs => simp [writeBack, hs, hw, lookupA_setA_ne _ _ _ _ h]

theorem writeBack_root_other_empty (store : Dict) (name : String) (e' : Dict)
    (k : String) (h : k ≠ name) :
    lookupA (writeBack store "" name e') k = lookupA store k := by
  simp [writeBack, lookupA_setA_ne _ _ _ _ h]

theorem writeBack_section_dict (store : Dict) (sect name : String) (e' : Dict)
    (m : Dict) (hs : sect ≠ "") (hw : lookupA store sect = some (.dict m)) :
    lookupA (writeBack store sect name e') sect =
      some (.dict (setA m name (.dict e'))) := by
  simp [writeBack, hs, hw, lookupA_setA_self]

/-! Lemmas about JSON round-tripping. -/

theorem roundTripEntries_eq_of (es : List (String × PyVal))
    (h : ∀ p ∈ es, roundTrip (Prod.snd p) = Prod.snd p) :
    roundTripEntries es = es := by
  induction es with
  | nil => simp [roundTripEntries]
  | cons p rest ih =>
    obtain ⟨k, v⟩ := p
    have h1 : roundTrip v = v := h (k, v) (List.mem_cons_self _ _)
    have h2 : ∀ p ∈ rest, roundTrip (Prod.snd p) = Prod.snd p :=
      fun p hp => h p (List.mem_cons_of_mem _ hp)
    simp [roundTripEntries, h1, ih h2]

theorem roundTripList_eq_of (xs : List PyVal)
    (h : ∀ x ∈ xs, roundTrip x = x) : roundTripList xs = xs := by
  induction xs with
  | nil => simp [roundTripList]
  | cons x rest ih =>
    have h1 : roundTrip x = x := h x (List.mem_cons_self _ _)
    have h2 : ∀ y ∈ rest, roundTrip y = y :=
      fun y hy => h y (List.mem_cons_of_mem _ hy)
    simp [roundTripList, h1, ih h2]

theorem roundTrip_of_tupleFree (v : PyVal) (h : TupleFree v) :
    roundTrip v = v := by
  induction h with
  | bool b => simp [roundTrip]
  | int n => simp [roundTrip]
  | float q => simp [roundTrip]
  | str s => simp [roundTrip]
  | dict es _ ih => simp [roundTrip, roundTripEntries_eq_of es ih]
  | list xs _ ih => simp [roundTrip, roundTripList_eq_of xs ih]

theorem lookupA_roundTripEntries (d : Dict) (k : String) :
    lookupA (roundTripEntries d) k = (lookupA d k).map roundTrip := by
  induction d with
  | nil => simp [roundTripEntries, lookupA]
  | cons p rest ih =>
    obtain ⟨k', v⟩ := p
    by_cases hk : k' = k
    · subst hk; simp [roundTripEntries, lookupA]
    · simp [roundTripEntries, lookupA, hk, ih]

theorem roundTrip_eq_dict (v : PyVal) (es' : List (String × PyVal))
    (h : roundTrip v = .dict es') :
    ∃ es, v = .dict es ∧ es' = roundTripEntries es := by
  cases v with
  | dict es =>
    simp [roundTrip] at h
    exact ⟨es, rfl, h.symm⟩
  | bool b => simp [roundTrip] at h
  | int n => simp [roundTrip] at h
  | float q => simp [roundTrip] at h
  | str s => simp [roundTrip] at h
  | list xs => simp [roundTrip] at h
  | tuple xs => simp [roundTrip] at h

theorem entryAt_roundTripEntries (store : Dict) (sect name : String) (e : Dict)
    (h : entryAt store sect name = some e) :
    entryAt (roundTripEntries store) sect name = some (roundTripEntries e) := by
  by_cases hs : sect = ""
  · subst hs
    cases hw : lookupA store name with
    | none => simp [entryAt, hw] at h
    | some w =>
      cases w with
      | dict e0 =>
        simp [entryAt, hw] at h
        subst h
        simp [entryAt, lookupA_roundTripEntries, hw, roundTrip]
      | bool b => simp [entryAt, hw] at h
      | int n => simp [entryAt, hw] at h
      | float q => simp [entryAt, hw] at h
      | str s => simp [entryAt, hw] at h
      | list xs => simp [entryAt, hw] at h
      | tuple xs => simp [entryAt, hw] at h
  · cases hw : lookupA store sect with
    | none => simp [entryAt, hs, hw] at h
    | some w =>
      cases w with
      | dict m =>
        cases hn : lookupA m name with
        | none => simp [entryAt, hs, hw, hn] at h
        | some u =>
          cases u with
          | dict e0 =>
            simp [entryAt, hs, hw, hn] at h
            subst h
            simp [entryAt, hs, lookupA_roundTripEntries, hw, hn, roundTrip]
          | bool b => simp [entryAt, hs, hw, hn] at h
          | int n => simp [entryAt, hs, hw, hn] at h
          | float q => simp [entryAt, hs, hw, hn] at h
          | str s => simp [entryAt, hs, hw, hn] at h
          | list xs => simp [entryAt, hs, hw, hn] at h
          | tuple xs => simp [entryAt, hs, hw, hn] at h
      | bool b => simp [entryAt, hs, hw] at h
      | int n => simp [entryAt, hs, hw] at h
      | float q => simp [entryAt, hs, hw] at h
      | str s => simp [entryAt, hs, hw] at h
      | list xs => simp [entryAt, hs, hw] at h
      | tuple xs => simp [entryAt, hs, hw] at h

theorem mem_eq_of_nodup_keys (a : Dict) : ∀ (k : String) (v v' : PyVal),
    (a.map Prod.fst).Nodup → (k, v) ∈ a → (k, v') ∈ a → v = v' := by
  induction a with
  | nil => intro k v v' _ h; simp at h
  | cons p rest ih =>
    intro k v v' hnd h1 h2
    obtain ⟨k0, v0⟩ := p
    obtain ⟨hknotin, hndrest⟩ := List.nodup_cons.mp hnd
    rcases List.mem_cons.mp h1 with he1 | hm1
    · injection he1 with a1 a2
      subst a1; subst a2
      rcases List.mem_cons.mp h2 with he2 | hm2
      · injection he2 with b1 b2
        exact b2.symm
      · exact absurd (List.mem_map_of_mem Prod.fst hm2) hknotin
    · rcases List.mem_cons.mp h2 with he2 | hm2
      · injection he2 with b1 b2
        subst b1; subst b2
        exact absurd (List.mem_map_of_mem Prod.fst hm1) hknotin
      · exact ih k v v' hndrest hm1 hm2

/-! Claim theorems. -/

/-- Claim C1: for an eligible attribute whose name is absent from the
resolved component entry, attach writes the component's current value into
the entry and increments the defaulted counter; for a present name it
overwrites the in-memory attribute with the stored value and increments the
restored counter. In particular, attaching a `widget` in section `s` with
default `speed = 1.0` against a document storing `speed = 2.5` leaves the
store at 2.5, sets the component's speed to 2.5, and counts
restored = 1, defaulted = 0. -/
theorem attach_defaults_or_restores :
    (∀ (e rest : Dict) (k : String) (v : PyVal),
      eligAttr (k, v) = true → lookupA e k = none →
      attachEntry e ((k, v) :: rest) =
        ⟨(attachEntry (e ++ [(k, v)]) rest).entry,
         (k, v) :: (attachEntry (e ++ [(k, v)]) rest).attrs,
         (attachEntry (e ++ [(k, v)]) rest).configured,
         (attachEntry (e ++ [(k, v)]) rest).default + 1⟩ ∧
      lookupA (e ++ [(k, v)]) k = some v) ∧
    (∀ (e rest : Dict) (k : String) (v w : PyVal),
      eligAttr (k, v) = true → lookupA e k = some w →
      attachEntry e ((k, v) :: rest) =
        ⟨(attachEntry e rest).entry,
         (k, w) :: (attachEntry e rest).attrs,
         (attachEntry e rest).configured + 1,
         (attachEntry e rest).default⟩) ∧
    attach [(("s"), .dict [(("widget"), .dict [(("speed"), .float (5/2))])])]
        ("s") ("widget") [(("speed"), .float 1)] =
      some ⟨[(("s"), .dict [(("widget"), .dict [(("speed"), .float (5/2))])])],
        [(("speed"), .float (5/2))], 1, 0⟩ := by
  refine ⟨?_, ?_, rfl⟩
  · intro e rest k v hel hw
    refine ⟨?_, lookupA_append_singleton_eq e k v hw⟩
    simp only [attachEntry, hel, hw, Bool.not_true, Bool.false_eq_true, if_false]
  · intro e rest k v w hel hw
    simp only [attachEntry, hel, hw, Bool.not_true, Bool.false_eq_true, if_false]

/-- Witness for C1 at concrete inputs. -/
theorem attach_defaults_or_restores_witness :
    (eligAttr (("speed"), .float 1) = true ∧ lookupA [] ("speed") = none ∧
      attachEntry [] [(("speed"), .float 1)] =
        ⟨(attachEntry ([] ++ [(("speed"), .float 1)]) []).entry,
         (("speed"), .float 1) :: (attachEntry ([] ++ [(("speed"), .float 1)]) []).attrs,
         (attachEntry ([] ++ [(("speed"), .float 1)]) []).configured,
         (attachEntry ([] ++ [(("speed"), .float 1)]) []).default + 1⟩) ∧
    (lookupA [(("speed"), .float (5/2))] ("speed") = some (.float (5/2)) ∧
      attachEntry [(("speed"), .float (5/2))] [(("speed"), .float 1)] =
        ⟨(attachEntry [(("speed"), .float (5/2))] []).entry,
         (("speed"), .float (5/2)) :: (attachEntry [(("speed"), .float (5/2))] []).attrs,
         (attachEntry [(("speed"), .float (5/2))] []).configured + 1,
         (attachEntry [(("speed"), .float (5/2))] []).default⟩) :=
  ⟨⟨rfl, rfl,
    (attach_defaults_or_restores.1 [] [] ("speed") (.float 1) rfl rfl).1⟩,
   ⟨rfl,
    attach_defaults_or_restores.2.1 [(("speed"), .float (5/2))] []
      ("speed") (.float 1) (.float (5/2)) rfl rfl⟩⟩

/-- Claim C8: an attribute whose value type is outside the eligible set, or
whose name starts with the reserved underscore marker, is skipped silently:
its entry in the store is untouched, the component's attribute keeps its
value, and the counters only ever count eligible attributes. -/
theorem ineligible_attrs_skipped (e attrs : Dict)
    (hnd : (attrs.map Prod.fst).Nodup) :
    (∀ (k : String) (v : PyVal), (k, v) ∈ attrs → eligAttr (k, v) = false →
      lookupA (attachEntry e attrs).entry k = lookupA e k ∧
      lookupA (attachEntry e attrs).attrs k = some v) ∧
    (attachEntry e attrs).configured + (attachEntry e attrs).default =
      (attrs.filter eligAttr).length := by
  refine ⟨?_, attachEntry_counts attrs e⟩
  intro k v hm hel
  refine ⟨?_, attachEntry_attrs_skip attrs e k v hnd hm hel⟩
  apply attachEntry_entry_frame
  intro v' hv'
  rw [mem_eq_of_nodup_keys attrs k v' v hnd hv' hm]
  exact hel

/-- Witness for C8: an underscore-named attribute and a list-valued attribute
are both skipped. -/
theorem ineligible_attrs_skipped_witness :
    (([(("_priv"), PyVal.int 1), (("xs"), PyVal.list [])].map Prod.fst).Nodup ∧
      eligAttr (("_priv"), PyVal.int 1) = false ∧
      eligAttr (("xs"), PyVal.list []) = false) ∧
    lookupA (attachEntry [(("k"), PyVal.int 7)]
        [(("_priv"), PyVal.int 1), (("xs"), PyVal.list [])]).entry ("xs") =
      lookupA [(("k"), PyVal.int 7)] ("xs") ∧
    lookupA (attachEntry [(("k"), PyVal.int 7)]
        [(("_priv"), PyVal.int 1), (("xs"), PyVal.list [])]).attrs ("xs") =
      some (PyVal.list []) ∧
    (attachEntry [(("k"), PyVal.int 7)]
        [(("_priv"), PyVal.int 1), (("xs"), PyVal.list [])]).configured +
      (attachEntry [(("k"), PyVal.int 7)]
        [(("_priv"), PyVal.int 1), (("xs"), PyVal.list [])]).default =
      ([(("_priv"), PyVal.int 1), (("xs"), PyVal.list [])].filter eligAttr).length :=
  ⟨⟨by simp, rfl, rfl⟩,
   ((ineligible_attrs_skipped [(("k"), PyVal.int 7)]
      [(("_priv"), PyVal.int 1), (("xs"), PyVal.list [])] (by simp)).1
      ("xs") (PyVal.list []) (by simp) rfl).1,
   ((ineligible_attrs_skipped [(("k"), PyVal.int 7)]
      [(("_priv"), PyVal.int 1), (("xs"), PyVal.list [])] (by simp)).1
      ("xs") (PyVal.list []) (by simp) rfl).2,
   (ineligible_attrs_skipped [(("k"), PyVal.int 7)]
      [(("_priv"), PyVal.int 1), (("xs"), PyVal.list [])] (by simp)).2⟩

/-- Claim C10: when the attribute name is present in the resolved entry, the
stored value is assigned to the component unconditionally: no hypothesis is
needed on the stored value `w`, which may be of any type, eligible or not. -/
theorem restore_without_type_check (e attrs : Dict) (k : String) (v w : PyVal)
    (hnd : (attrs.map Prod.fst).Nodup) (hm : (k, v) ∈ attrs)
    (hel : eligAttr (k, v) = true) (hw : lookupA e k = some w) :
    lookupA (attachEntry e attrs).attrs k = some w :=
  attachEntry_restore attrs e k v w hnd hm hel hw

/-- Witness for C10: a list stored under an eligible key — the reloaded form
of a serialised tuple, itself no longer of eligible type — is still restored
onto the component. -/
theorem restore_without_type_check_witness :
    (([(("speed"), PyVal.tuple [.int 1])].map Prod.fst).Nodup ∧
      (("speed"), PyVal.tuple [.int 1]) ∈ [(("speed"), PyVal.tuple [.int 1])] ∧
      eligAttr (("speed"), PyVal.tuple [.int 1]) = true ∧
      lookupA [(("speed"), PyVal.list [.int 1])] ("speed") =
        some (.list [.int 1]) ∧
      isConfigurable (PyVal.list [.int 1]) = false) ∧
    lookupA (attachEntry [(("speed"), PyVal.list [.int 1])]
        [(("speed"), PyVal.tuple [.int 1])]).attrs ("speed") =
      some (PyVal.list [.int 1]) :=
  ⟨⟨by simp, by simp, rfl, rfl, rfl⟩,
   restore_without_type_check [(("speed"), PyVal.list [.int 1])]
     [(("speed"), PyVal.tuple [.int 1])] ("speed") (PyVal.tuple [.int 1])
     (PyVal.list [.int 1]) (by simp) (by simp) rfl rfl⟩

/-- Claim C6: attaching against an existing component entry adds only the
defaults of attributes missing from the entry, preserves every previously
stored attribute value, and leaves every part of the store outside the
component's `(section, name)` path unchanged. -/
theorem attach_accretion_frame (store : Dict) (sect name : String)
    (attrs : Dict) (e : Dict) (o : AttachOutcome)
    (hnd : (attrs.map Prod.fst).Nodup)
    (he : entryAt store sect name = some e)
    (h : attach store sect name attrs = some o) :
    ∃ e', entryAt o.store sect name = some e' ∧
      (∀ (k : String) (w : PyVal), lookupA e k = some w → lookupA e' k = some w) ∧
      (∀ (k : String) (v : PyVal), (k, v) ∈ attrs → eligAttr (k, v) = true →
        lookupA e k = none → lookupA e' k = some v) ∧
      (sect = "" → ∀ k, k ≠ name → lookupA o.store k = lookupA store k) ∧
      (sect ≠ "" →
        (∀ k, k ≠ sect → lookupA o.store k = lookupA store k) ∧
        (∀ n', n' ≠ name → entryAt o.store sect n' = entryAt store sect n')) := by
  have hr := resolve_of_entryAt store sect name e he
  rw [attach_eq] at h
  rw [hr] at h
  simp only [Option.some.injEq] at h
  subst h
  refine ⟨(attachEntry e attrs).entry, entryAt_writeBack_self _ _ _ _,
    fun k w hw => attachEntry_entry_preserve attrs e k w hw,
    fun k v hm hel hw => attachEntry_default_new attrs e k v hnd hm hel hw,
    ?_, ?_⟩
  · intro hs k hk
    subst hs
    exact writeBack_root_other_empty store name _ k hk
  · intro hs
    exact ⟨fun k hk => writeBack_root_other store sect name _ k hs hk,
           fun n' hn => entryAt_writeBack_other store sect name _ n' hn⟩

/-- Witness for C6: a component gains one brand-new attribute `new` while the
stored value of `old` and an unrelated section survive unchanged. -/
theorem attach_accretion_frame_witness :
    (([(("old"), PyVal.int 2), (("new"), PyVal.bool true)].map Prod.fst).Nodup ∧
      entryAt [(("s"), PyVal.dict [(("widget"), PyVal.dict [(("old"), PyVal.int 1)])]),
          (("t"), PyVal.dict [])] ("s") ("widget") = some [(("old"), PyVal.int 1)] ∧
      attach [(("s"), PyVal.dict [(("widget"), PyVal.dict [(("old"), PyVal.int 1)])]),
          (("t"), PyVal.dict [])] ("s") ("widget")
          [(("old"), PyVal.int 2), (("new"), PyVal.bool true)] =
        some ⟨[(("s"), PyVal.dict [(("widget"),
                PyVal.dict [(("old"), PyVal.int 1), (("new"), PyVal.bool true)])]),
               (("t"), PyVal.dict [])],
          [(("old"), PyVal.int 1), (("new"), PyVal.bool true)], 1, 1⟩) ∧
    (∃ e', entryAt [(("s"), PyVal.dict [(("widget"),
            PyVal.dict [(("old"), PyVal.int 1), (("new"), PyVal.bool true)])]),
           (("t"), PyVal.dict [])] ("s") ("widget") = some e' ∧
      (∀ (k : String) (w : PyVal), lookupA [(("old"), PyVal.int 1)] k = some w →
        lookupA e' k = some w) ∧
      (∀ (k : String) (v : PyVal),
        (k, v) ∈ [(("old"), PyVal.int 2), (("new"), PyVal.bool true)] →
        eligAttr (k, v) = true → lookupA [(("old"), PyVal.int 1)] k = none →
        lookupA e' k = some v) ∧
      ((("s") : String) = "" → ∀ k, k ≠ ("widget") →
        lookupA [(("s"), PyVal.dict [(("widget"),
            PyVal.dict [(("old"), PyVal.int 1), (("new"), PyVal.bool true)])]),
           (("t"), PyVal.dict [])] k =
        lookupA [(("s"), PyVal.dict [(("widget"), PyVal.dict [(("old"), PyVal.int 1)])]),
          (("t"), PyVal.dict [])] k) ∧
      ((("s") : String) ≠ "" →
        (∀ k, k ≠ ("s") →
          lookupA [(("s"), PyVal.dict [(("widget"),
              PyVal.dict [(("old"), PyVal.int 1), (("new"), PyVal.bool true)])]),
             (("t"), PyVal.dict [])] k =
          lookupA [(("s"), PyVal.dict [(("widget"), PyVal.dict [(("old"), PyVal.int 1)])]),
            (("t"), PyVal.dict [])] k) ∧
        (∀ n', n' ≠ ("widget") →
          entryAt [(("s"), PyVal.dict [(("widget"),
              PyVal.dict [(("old"), PyVal.int 1), (("new"), PyVal.bool true)])]),
             (("t"), PyVal.dict [])] ("s") n' =
          entryAt [(("s"), PyVal.dict [(("widget"), PyVal.dict [(("old"), PyVal.int 1)])]),
            (("t"), PyVal.dict [])] ("s") n'))) :=
  ⟨⟨by simp, rfl, rfl⟩,
   attach_accretion_frame
     [(("s"), PyVal.dict [(("widget"), PyVal.dict [(("old"), PyVal.int 1)])]),
      (("t"), PyVal.dict [])] ("s") ("widget")
     [(("old"), PyVal.int 2), (("new"), PyVal.bool true)]
     [(("old"), PyVal.int 1)] _ (by simp) rfl rfl⟩

/-- Claim C5: attaching the same component twice in sequence, with no
mutation between, makes the second attach restore everything and default
nothing: its defaulted count is zero and its restored count equals the number
of eligible attributes (the well-formedness hypothesis rules out pre-existing
stored values of ineligible type at the component's path, the only way a
reloaded document can lower the eligible-attribute count). -/
theorem attach_idempotent (store : Dict) (sect name : String) (attrs : Dict)
    (o : AttachOutcome)
    (hwf : ∀ e, resolve store sect name = .entry e →
      ∀ (k : String) (w : PyVal), lookupA e k = some w → isConfigurable w = true)
    (h : attach store sect name attrs = some o) :
    ∃ o₂, attach o.store sect name o.attrs = some o₂ ∧
      o₂.default = 0 ∧ o₂.configured = (attrs.filter eligAttr).length := by
  cases hr : resolve store sect name with
  | entry e =>
    rw [attach_eq] at h
    rw [hr] at h
    simp only [Option.some.injEq] at h
    subst h
    have hr2 : resolve (writeBack store sect name (attachEntry e attrs).entry)
        sect name = .entry (attachEntry e attrs).entry :=
      resolve_writeBack store sect name (attachEntry e attrs).entry
    have hcov : ∀ p ∈ (attachEntry e attrs).attrs, eligAttr p = true →
        (lookupA (attachEntry e attrs).entry p.1).isSome := by
      intro p hp hpe
      obtain ⟨k, v⟩ := p
      exact attachEntry_coverage attrs e k v hp hpe
    obtain ⟨h1, h2, h3⟩ :=
      attachEntry_all_present (attachEntry e attrs).attrs
        (attachEntry e attrs).entry hcov
    refine ⟨⟨writeBack (writeBack store sect name (attachEntry e attrs).entry)
        sect name (attachEntry (attachEntry e attrs).entry
          (attachEntry e attrs).attrs).entry,
      (attachEntry (attachEntry e attrs).entry (attachEntry e attrs).attrs).attrs,
      (attachEntry (attachEntry e attrs).entry (attachEntry e attrs).attrs).configured,
      (attachEntry (attachEntry e attrs).entry (attachEntry e attrs).attrs).default⟩,
      ?_, h2, ?_⟩
    · rw [attach_eq]
      rw [hr2]
    · rw [h3]
      exact attachEntry_elig_count attrs e (hwf e hr)
  | badEntry =>
    rw [attach_eq] at h
    rw [hr] at h
    by_cases hall : attrs.all fun p => !(eligAttr p)
    · simp only [hall, if_true, Option.some.injEq] at h
      subst h
      have hnil : attrs.filter eligAttr = [] := by
        apply List.filter_eq_nil_iff.mpr
        intro p hp
        have hp2 := List.all_eq_true.mp hall p hp
        simp only [Bool.not_eq_true', Bool.not_eq_true] at hp2
        simp [hp2]
      refine ⟨⟨store, attrs, 0, 0⟩, ?_, rfl, by simp [hnil]⟩
      rw [attach_eq]
      rw [hr]
      simp [hall]
    · simp [hall] at h
  | badSection =>
    rw [attach_eq] at h
    rw [hr] at h
    cases h

/-- Witness for C5 at a concrete fresh store. -/
theorem attach_idempotent_witness :
    ((∀ e, resolve [] ("s") ("w") = .entry e →
      ∀ (k : String) (w : PyVal), lookupA e k = some w →
        isConfigurable w = true) ∧
      attach [] ("s") ("w") [(("speed"), PyVal.float 1)] =
        some ⟨[(("s"), PyVal.dict [(("w"), PyVal.dict [(("speed"), PyVal.float 1)])])],
          [(("speed"), PyVal.float 1)], 0, 1⟩) ∧
    (∃ o₂, attach [(("s"), PyVal.dict [(("w"), PyVal.dict [(("speed"), PyVal.float 1)])])]
        ("s") ("w") [(("speed"), PyVal.float 1)] = some o₂ ∧
      o₂.default = 0 ∧
      o₂.configured = ([(("speed"), PyVal.float 1)].filter eligAttr).length) :=
  ⟨⟨by
      intro e he k w hw
      rw [show resolve [] ("s") ("w") = Resolution.entry [] from rfl] at he
      injection he with he
      subst he
      simp [lookupA] at hw,
    rfl⟩,
   attach_idempotent [] ("s") ("w") [(("speed"), PyVal.float 1)] _
     (by
      intro e he k w hw
      rw [show resolve [] ("s") ("w") = Resolution.entry [] from rfl] at he
      injection he with he
      subst he
      simp [lookupA] at hw)
     rfl⟩

/-- Claim C4: an attach rewrites the config file exactly when its defaulted
counter is positive; in particular an attach in which every eligible
attribute is restored from existing stored values leaves the disk untouched. -/
theorem save_triggered_iff_new_defaults (store : Dict) (disk : Option Dict)
    (sect name : String) (attrs : Dict) (o : RunOutcome)
    (h : attachRun store disk sect name attrs = some o) :
    (o.default = 0 → o.disk = disk) ∧
    (0 < o.default → o.disk = some (roundTripEntries o.store)) ∧
    (∀ e, entryAt store sect name = some e →
      (∀ p ∈ attrs, eligAttr p = true → (lookupA e p.1).isSome) →
      o.default = 0 ∧ o.disk = disk) := by
  cases ha : attach store sect name attrs with
  | none => simp [attachRun, ha] at h
  | some o0 =>
    simp only [attachRun, ha, Option.some.injEq] at h
    subst h
    refine ⟨?_, ?_, ?_⟩
    · intro h0
      simp only at h0
      simp [h0]
    · intro h0
      simp only at h0
      simp [h0]
    · intro e he hall
      have hr := resolve_of_entryAt store sect name e he
      rw [attach_eq] at ha
      rw [hr] at ha
      obtain ⟨_, h2, _⟩ := attachEntry_all_present attrs e hall
      have hd : o0.default = 0 := by
        injection ha with ha
        rw [← ha, h2]
      simp [hd]

/-- Witness for C4: restoring-only attach against an up-to-date entry leaves
the disk state unchanged. -/
theorem save_triggered_iff_new_defaults_witness :
    (attachRun [(("w"), PyVal.dict [(("speed"), PyVal.float 1)])] none
        ("") ("w") [(("speed"), PyVal.float 2)] =
      some ⟨[(("w"), PyVal.dict [(("speed"), PyVal.float 1)])], none,
        [(("speed"), PyVal.float 1)], 1, 0⟩ ∧
      entryAt [(("w"), PyVal.dict [(("speed"), PyVal.float 1)])] ("") ("w") =
        some [(("speed"), PyVal.float 1)] ∧
      (∀ p ∈ [(("speed"), PyVal.float 2)], eligAttr p = true →
        (lookupA [(("speed"), PyVal.float 1)] p.1).isSome)) ∧
    ((⟨[(("w"), PyVal.dict [(("speed"), PyVal.float 1)])], none,
        [(("speed"), PyVal.float 1)], 1, 0⟩ : RunOutcome).default = 0 ∧
     (⟨[(("w"), PyVal.dict [(("speed"), PyVal.float 1)])], none,
        [(("speed"), PyVal.float 1)], 1, 0⟩ : RunOutcome).disk = none) :=
  ⟨⟨rfl, rfl, by
      intro p hp _
      simp at hp
      subst hp
      rfl⟩,
   (save_triggered_iff_new_defaults
      [(("w"), PyVal.dict [(("speed"), PyVal.float 1)])] none ("") ("w")
      [(("speed"), PyVal.float 2)] _ rfl).2.2 [(("speed"), PyVal.float 1)] rfl
      (by
        intro p hp _
        simp at hp
        subst hp
        rfl)⟩

theorem resolve_defaultConfig (sect name : String) (e : Dict)
    (h : resolve defaultConfig sect name = .entry e) : e = [] := by
  by_cases hs : sect = ""
  · subst hs
    by_cases h1 : ("use-config") = name
    · subst h1
      simp [resolve, defaultConfig, lookupA] at h
    · by_cases h2 : ("use-config-comment") = name
      · subst h2
        simp [resolve, defaultConfig, lookupA, h1] at h
      · simp [resolve, defaultConfig, lookupA, h1, h2] at h
        exact h
  · by_cases h1 : ("use-config") = sect
    · subst h1
      simp [resolve, defaultConfig, lookupA, hs] at h
    · by_cases h2 : ("use-config-comment") = sect
      · subst h2
        simp [resolve, defaultConfig, lookupA, hs, h1] at h
      · simp [resolve, defaultConfig, lookupA, hs, h1, h2] at h
        exact h

/-- Claim C3: with `use-config` false or absent (or the file missing), the
load discards the on-disk document in favour of the built-in defaults, and
every attach that completes against the default store restores nothing:
its restored count is zero, every eligible attribute is defaulted, and the
component's attributes are left exactly as they were. -/
theorem use_config_off_defaults_all :
    (∀ es : Dict, (lookupA es ("use-config") = none ∨
        ∃ w, lookupA es ("use-config") = some w ∧ pyTruthy w = false) →
      loadConfigurables (some (some (.dict es))) = .ok defaultConfig) ∧
    loadConfigurables none = .ok defaultConfig ∧
    (∀ (sect name : String) (attrs : Dict) (o : AttachOutcome),
      (attrs.map Prod.fst).Nodup →
      attach defaultConfig sect name attrs = some o →
      o.configured = 0 ∧ o.default = (attrs.filter eligAttr).length ∧
        o.attrs = attrs) := by
  refine ⟨?_, rfl, ?_⟩
  · intro es h
    rcases h with h | ⟨w, hw, ht⟩
    · simp [loadConfigurables, h]
    · simp [loadConfigurables, hw, ht]
  · intro sect name attrs o hnd h
    cases hr : resolve defaultConfig sect name with
    | entry e =>
      have he : e = [] := resolve_defaultConfig sect name e hr
      subst he
      rw [attach_eq] at h
      rw [hr] at h
      simp only [Option.some.injEq] at h
      subst h
      obtain ⟨h1, h2, h3⟩ := attachEntry_fresh attrs [] hnd (fun p _ _ => rfl)
      exact ⟨h2, h3, h1⟩
    | badEntry =>
      rw [attach_eq] at h
      rw [hr] at h
      by_cases hall : attrs.all fun p => !(eligAttr p)
      · simp only [hall, if_true, Option.some.injEq] at h
        subst h
        have hnil : attrs.filter eligAttr = [] := by
          apply List.filter_eq_nil_iff.mpr
          intro p hp
          have hp2 := List.all_eq_true.mp hall p hp
          simp only [Bool.not_eq_true', Bool.not_eq_true] at hp2
          simp [hp2]
        exact ⟨rfl, by simp [hnil], rfl⟩
      · simp [hall] at h
    | badSection =>
      rw [attach_eq] at h
      rw [hr] at h
      cases h

/-- Witness for C3: a document with `use-config: false` is discarded and an
attach against the default store defaults its one eligible attribute. -/
theorem use_config_off_defaults_all_witness :
    ((lookupA [(("use-config"), PyVal.bool false), (("junk"), PyVal.int 7)]
        ("use-config") = some (.bool false) ∧
      pyTruthy (.bool false) = false ∧
      loadConfigurables (some (some (.dict
        [(("use-config"), PyVal.bool false), (("junk"), PyVal.int 7)]))) =
        .ok defaultConfig) ∧
     (([(("speed"), PyVal.float 1)].map Prod.fst).Nodup ∧
      attach defaultConfig ("s") ("widget") [(("speed"), PyVal.float 1)] =
        some ⟨defaultConfig ++
            [(("s"), PyVal.dict [(("widget"),
              PyVal.dict [(("speed"), PyVal.float 1)])])],
          [(("speed"), PyVal.float 1)], 0, 1⟩)) ∧
    ((⟨defaultConfig ++ [(("s"), PyVal.dict [(("widget"),
          PyVal.dict [(("speed"), PyVal.float 1)])])],
        [(("speed"), PyVal.float 1)], 0, 1⟩ : AttachOutcome).configured = 0 ∧
     (⟨defaultConfig ++ [(("s"), PyVal.dict [(("widget"),
          PyVal.dict [(("speed"), PyVal.float 1)])])],
        [(("speed"), PyVal.float 1)], 0, 1⟩ : AttachOutcome).default =
       ([(("speed"), PyVal.float 1)].filter eligAttr).length ∧
     (⟨defaultConfig ++ [(("s"), PyVal.dict [(("widget"),
          PyVal.dict [(("speed"), PyVal.float 1)])])],
        [(("speed"), PyVal.float 1)], 0, 1⟩ : AttachOutcome).attrs =
       [(("speed"), PyVal.float 1)]) :=
  ⟨⟨⟨rfl, rfl,
     use_config_off_defaults_all.1
       [(("use-config"), PyVal.bool false), (("junk"), PyVal.int 7)]
       (Or.inr ⟨.bool false, rfl, rfl⟩)⟩,
    ⟨by simp, rfl⟩⟩,
   use_config_off_defaults_all.2.2 ("s") ("widget")
     [(("speed"), PyVal.float 1)] _ (by simp) rfl⟩

/-- Claim C2 counterexample: a stored tuple does not survive a save/reload
round trip — the serialised document reads the value back as a list, which
is a different value from the original tuple. -/
theorem tuple_roundtrip_counterexample :
    lookupA [(("use-config"), PyVal.bool true),
        (("widget"), PyVal.dict [(("t"), PyVal.tuple [])])] ("t") = none ∧
    entryAt [(("use-config"), PyVal.bool true),
        (("widget"), PyVal.dict [(("t"), PyVal.tuple [])])] ("") ("widget") =
      some [(("t"), PyVal.tuple [])] ∧
    loadConfigurables (some (some (.dict (roundTripEntries
        [(("use-config"), PyVal.bool true),
         (("widget"), PyVal.dict [(("t"), PyVal.tuple [])])])))) =
      .ok [(("use-config"), PyVal.bool true),
           (("widget"), PyVal.dict [(("t"), PyVal.list [])])] ∧
    entryAt [(("use-config"), PyVal.bool true),
        (("widget"), PyVal.dict [(("t"), PyVal.list [])])] ("") ("widget") =
      some [(("t"), PyVal.list [])] ∧
    lookupA [(("t"), PyVal.list [])] ("t") = some (PyVal.list []) ∧
    PyVal.list [] ≠ PyVal.tuple [] :=
  ⟨rfl, rfl, rfl, rfl, rfl, fun h => PyVal.noConfusion h⟩

/-- Claim C2 (amended): with the document honoured (`use-config` true),
saving and reloading preserves every stored attribute value that contains no
tuple — booleans, integers, floats, strings, and mappings/sequences of such
values — exactly; a tuple reloads as a list instead. -/
theorem save_reload_roundtrip (store : Dict) (sect name k : String)
    (e : Dict) (v : PyVal)
    (huse : lookupA store ("use-config") = some (.bool true))
    (he : entryAt store sect name = some e)
    (hv : lookupA e k = some v) (htf : TupleFree v) :
    loadConfigurables (some (some (.dict (roundTripEntries store)))) =
      .ok (roundTripEntries store) ∧
    ∃ e', entryAt (roundTripEntries store) sect name = some e' ∧
      lookupA e' k = some v := by
  constructor
  · have h1 : lookupA (roundTripEntries store) ("use-config") =
        some (.bool true) := by
      rw [lookupA_roundTripEntries, huse]
      rfl
    simp [loadConfigurables, h1, pyTruthy]
  · refine ⟨roundTripEntries e, entryAt_roundTripEntries store sect name e he, ?_⟩
    rw [lookupA_roundTripEntries, hv]
    simp [roundTrip_of_tupleFree v htf]

/-- Witness for C2 (amended) at a concrete float-valued attribute. -/
theorem save_reload_roundtrip_witness :
    (lookupA [(("use-config"), PyVal.bool true),
        (("widget"), PyVal.dict [(("speed"), PyVal.float (5/2))])]
        ("use-config") = some (.bool true) ∧
      entryAt [(("use-config"), PyVal.bool true),
        (("widget"), PyVal.dict [(("speed"), PyVal.float (5/2))])]
        ("") ("widget") = some [(("speed"), PyVal.float (5/2))] ∧
      lookupA [(("speed"), PyVal.float (5/2))] ("speed") =
        some (PyVal.float (5/2))) ∧
    (loadConfigurables (some (some (.dict (roundTripEntries
        [(("use-config"), PyVal.bool true),
         (("widget"), PyVal.dict [(("speed"), PyVal.float (5/2))])])))) =
      .ok (roundTripEntries [(("use-config"), PyVal.bool true),
         (("widget"), PyVal.dict [(("speed"), PyVal.float (5/2))])]) ∧
     ∃ e', entryAt (roundTripEntries [(("use-config"), PyVal.bool true),
         (("widget"), PyVal.dict [(("speed"), PyVal.float (5/2))])])
        ("") ("widget") = some e' ∧
      lookupA e' ("speed") = some (PyVal.float (5/2))) :=
  ⟨⟨rfl, rfl, rfl⟩,
   save_reload_roundtrip
     [(("use-config"), PyVal.bool true),
      (("widget"), PyVal.dict [(("speed"), PyVal.float (5/2))])]
     ("") ("widget") ("speed") [(("speed"), PyVal.float (5/2))]
     (PyVal.float (5/2)) rfl rfl rfl (TupleFree.float (5/2))⟩

/-- Claim C7 counterexample: a component overriding its display string with a
string that begins with the sentinel character `<` does not get that string
as its namespace key — the code misclassifies it and uses the lower-cased
type name instead. -/
theorem make_name_sentinel_counterexample :
    make_name ("Motor") (some ("<motor-a")) = ("motor") ∧
    ("motor" : String) ≠ ("<motor-a") :=
  ⟨rfl, by decide⟩

/-- Claim C7 (amended): the namespace key is the custom display string when
an override is supplied and does not begin with the `<` sentinel, and the
lower-cased type name when no override is supplied; two components attached
under distinct names occupy independent entries — attaching the second never
changes the entry of the first. -/
theorem make_name_identity_and_independence :
    (∀ (cn s : String), ¬pyStartsWith s ("<") = true → s ≠ "" →
      make_name cn (some s) = s) ∧
    (∀ cn : String, make_name cn none = pyLower cn) ∧
    (∀ (store : Dict) (sect n1 n2 : String) (a2 : Dict)
        (o2 : AttachOutcome), n1 ≠ n2 →
      attach store sect n2 a2 = some o2 →
      entryAt o2.store sect n1 = entryAt store sect n1) := by
  refine ⟨?_, ?_, ?_⟩
  · intro cn s h _
    simp [make_name, h]
  · intro cn
    have h : pyStartsWith ("<__main__." ++ cn ++ " object at 0x0000>")
        ("<") = true := by
      simp [pyStartsWith, String.data_append, List.isPrefixOf]
    simp [make_name, h]
  · intro store sect n1 n2 a2 o2 hne h
    cases hr : resolve store sect n2 with
    | entry e =>
      rw [attach_eq] at h
      rw [hr] at h
      simp only [Option.some.injEq] at h
      subst h
      exact entryAt_writeBack_other store sect n2 _ n1 hne
    | badEntry =>
      rw [attach_eq] at h
      rw [hr] at h
      by_cases hall : a2.all fun p => !(eligAttr p)
      · simp only [hall, if_true, Option.some.injEq] at h
        subst h
        rfl
      · simp [hall] at h
    | badSection =>
      rw [attach_eq] at h
      rw [hr] at h
      cases h

/-- Witness for C7 (amended): `motor-a` and `motor-b` persist separately
and the second attach leaves the first entry intact. -/
theorem make_name_identity_and_independence_witness :
    (¬pyStartsWith ("motor-a") ("<") = true ∧ ("motor-a" : String) ≠ "" ∧
      make_name ("Motor") (some ("motor-a")) = ("motor-a")) ∧
    (make_name ("Motor") none = pyLower ("Motor") ∧
      pyLower ("Motor") = ("motor")) ∧
    ((("motor-a") : String) ≠ ("motor-b") ∧
      attach [(("motor-a"), PyVal.dict [(("speed"), PyVal.float 1)])]
        ("") ("motor-b") [(("speed"), PyVal.float 2)] =
        some ⟨[(("motor-a"), PyVal.dict [(("speed"), PyVal.float 1)]),
               (("motor-b"), PyVal.dict [(("speed"), PyVal.float 2)])],
          [(("speed"), PyVal.float 2)], 0, 1⟩ ∧
      entryAt [(("motor-a"), PyVal.dict [(("speed"), PyVal.float 1)]),
               (("motor-b"), PyVal.dict [(("speed"), PyVal.float 2)])]
        ("") ("motor-a") =
      entryAt [(("motor-a"), PyVal.dict [(("speed"), PyVal.float 1)])]
        ("") ("motor-a")) :=
  ⟨⟨by decide, by decide,
    make_name_identity_and_independence.1 ("Motor") ("motor-a")
      (by decide) (by decide)⟩,
   ⟨make_name_identity_and_independence.2.1 ("Motor"), rfl⟩,
   ⟨by decide, rfl,
    make_name_identity_and_independence.2.2
      [(("motor-a"), PyVal.dict [(("speed"), PyVal.float 1)])]
      ("") ("motor-a") ("motor-b") [(("speed"), PyVal.float 2)] _
      (by decide) rfl⟩⟩

/-- Claim C9 counterexample: a file whose content is valid JSON but not a
mapping — here the array `[1, 2]` — does not make loading fail: it is
silently discarded and replaced by the built-in default document. -/
theorem load_nonmapping_counterexample :
    loadConfigurables (some (some (.list [.int 1, .int 2]))) =
      .ok defaultConfig ∧
    loadConfigurables (some (some (.list [.int 1, .int 2]))) ≠
      .error .jsonDecode ∧
    loadConfigurables (some (some (.list [.int 1, .int 2]))) ≠
      .error .typeError :=
  ⟨rfl, fun h => Except.noConfusion h, fun h => Except.noConfusion h⟩

/-- Claim C9 (amended): only content the JSON parser rejects is guaranteed to
fail the load with a propagating error (a parsed scalar also raises, through
the unsupported membership test); content parsing to a JSON array or string
that does not contain the reserved key is silently superseded by the
built-in defaults instead of being reported. -/
theorem load_malformed_amended :
    loadConfigurables (some none) = .error .jsonDecode ∧
    (∀ n : Int, loadConfigurables (some (some (.int n))) =
      .error .typeError) ∧
    (∀ xs : List PyVal, seqHasUseConfig xs = false →
      loadConfigurables (some (some (.list xs))) = .ok defaultConfig) ∧
    (∀ s : String, strHasUseConfig s = false →
      loadConfigurables (some (some (.str s))) = .ok defaultConfig) := by
  refine ⟨rfl, fun n => rfl, ?_, ?_⟩
  · intro xs h
    simp [loadConfigurables, h]
  · intro s h
    simp [loadConfigurables, h]

/-- Witness for C9 (amended) at concrete non-mapping documents. -/
theorem load_malformed_amended_witness :
    (seqHasUseConfig [PyVal.int 3] = false ∧
      loadConfigurables (some (some (.list [PyVal.int 3]))) =
        .ok defaultConfig) ∧
    (strHasUseConfig ("abc") = false ∧
      loadConfigurables (some (some (.str ("abc")))) = .ok defaultConfig) :=
  ⟨⟨rfl, load_malformed_amended.2.2.1 [PyVal.int 3] rfl⟩,
   ⟨rfl, load_malformed_amended.2.2.2 ("abc") rfl⟩⟩

end Backendutil
